import Mathlib

/-!
Verification development for the todo-app repository.

The server actions live in `src/routes/+page.server.ts` (create, update,
complete, restore, delete, reorder over a single `todo` table), the table
schema in `src/lib/server/db/schema.ts`, and the client-side view
projection (`filteredTodos`) in `src/routes/+page.svelte`.

Modelling conventions:
- the `todo` table is a `List Todo` in row order (insertion order);
- JavaScript strings are Lean `String`s, and the JS string methods used by
  the code (`trim`, `toLowerCase`, `includes`) are modelled character-wise
  (`jsTrim`, `jsToLower`, `jsIncludes`);
- `parseFloat` followed by `Math.round(x * 100)` is modelled exactly on
  decimal literals within the IEEE-754 double range: `jsParseFloat`
  returns the parsed mantissa as an integer together with a power of ten
  denominator, saturating to a signed infinity at the double overflow
  boundary (`dblOverflow`), `jsTimes100Round` likewise saturates when the
  multiplication by 100 leaves the double range and otherwise rounds via
  `jsRound100` by integer floor division (in-range arithmetic is exact;
  sub-ulp double rounding is not modelled);
- `Date.now()` is an explicit `now : Int` parameter; `crypto.randomUUID()`
  is an explicit `newId : String` parameter;
- SQLite row updates (`db.update(...).set(...).where(eq(todo.id, id))`)
  become a `List.map` touching the matching rows; inserts append; deletes
  filter.
-/

namespace TodoApp

set_option exponentiation.threshold 1100

/-- Whitespace characters for the model of JavaScript `String.prototype.trim`. -/
def jsSpace (c : Char) : Bool :=
  c = ' ' || c = '\t' || c = '\n' || c = '\r'

/-- Model of JavaScript `s.trim()`: drop whitespace from both ends. -/
def jsTrim (s : String) : String :=
  ⟨((s.data.dropWhile jsSpace).reverse.dropWhile jsSpace).reverse⟩

/-- Model of JavaScript `s.toLowerCase()`: lower-case every character. -/
def jsToLower (s : String) : String :=
  ⟨s.data.map Char.toLower⟩

/-- Does `sub` occur as a contiguous run inside `l`? (Helper for `jsIncludes`.) -/
def charsContains (l sub : List Char) : Bool :=
  match l with
  | [] => sub.isEmpty
  | _ :: tl => sub.isPrefixOf l || charsContains tl sub

/-- Model of JavaScript `s.includes(sub)`: substring containment. -/
def jsIncludes (s sub : String) : Bool :=
  charsContains s.data sub.data

/-- Result of the model of JavaScript `parseFloat`: either `NaN`, a signed
infinity, or a finite decimal value `num / 10 ^ pow10`. -/
inductive JsFloat where
  | nan : JsFloat
  | inf (neg : Bool) : JsFloat
  | fin (num : Int) (pow10 : Nat) : JsFloat
deriving DecidableEq, Repr

/-- Numeric value of a list of decimal digit characters. -/
def digitsToNat (ds : List Char) : Nat :=
  ds.foldl (fun a c => 10 * a + (c.toNat - 48)) 0

/-- The IEEE-754 double overflow boundary `2^1024 - 2^970`: the midpoint
between the largest finite double and `2^1024`. Round-to-nearest sends
any magnitude at or above it to infinity. -/
def dblOverflow : Nat := 2 ^ 1024 - 2 ^ 970

/-- Model of ECMAScript `parseFloat` on the already-trimmed cost string:
an optional sign, then `Infinity` or a decimal literal
(`digits [. digits] [e/E [sign] digits]`, or `. digits ...`), read as the
longest valid prefix; anything with no valid numeric prefix is `NaN`.
A literal whose magnitude reaches the double overflow boundary yields the
signed infinity that `parseFloat` produces; an in-range result is
returned exactly as mantissa over a power of ten (the code then
immediately rounds, see `jsTimes100Round`). -/
def jsParseFloat (s : String) : JsFloat :=
  let signed : Bool × List Char :=
    match s.data with
    | '-' :: r => (true, r)
    | '+' :: r => (false, r)
    | r => (false, r)
  let neg := signed.1
  let rest := signed.2
  if ("Infinity".data).isPrefixOf rest then JsFloat.inf neg
  else
    let ip := rest.takeWhile Char.isDigit
    let r1 := rest.dropWhile Char.isDigit
    let fracPart : List Char × List Char :=
      match r1 with
      | '.' :: r => (r.takeWhile Char.isDigit, r.dropWhile Char.isDigit)
      | _ => ([], r1)
    let fp := fracPart.1
    let r2 := fracPart.2
    if ip.isEmpty && fp.isEmpty then JsFloat.nan
    else
      let expPart : Bool × List Char :=
        match r2 with
        | 'e' :: '-' :: r => (true, r.takeWhile Char.isDigit)
        | 'e' :: '+' :: r => (false, r.takeWhile Char.isDigit)
        | 'e' :: r => (false, r.takeWhile Char.isDigit)
        | 'E' :: '-' :: r => (true, r.takeWhile Char.isDigit)
        | 'E' :: '+' :: r => (false, r.takeWhile Char.isDigit)
        | 'E' :: r => (false, r.takeWhile Char.isDigit)
        | _ => (false, [])
      let ex := digitsToNat expPart.2
      let num0 : Nat := (digitsToNat ip) * 10 ^ fp.length + digitsToNat fp
      let numk : Nat × Nat :=
        if expPart.1 then (num0, fp.length + ex)
        else (num0 * 10 ^ ex, fp.length)
      if dblOverflow * 10 ^ numk.2 ≤ numk.1 then JsFloat.inf neg
      else JsFloat.fin (if neg then -(numk.1 : Int) else (numk.1 : Int)) numk.2

/-- Model of `Math.round(q * 100)` for the finite value `q = num / 10 ^ k`:
`Math.round x = ⌊x + 1/2⌋`, so the result is
`⌊(100 num / 10^k) + 1/2⌋ = fdiv (200 num + 10^k) (2 * 10^k)`. -/
def jsRound100 (num : Int) (k : Nat) : Int :=
  Int.fdiv (200 * num + 10 ^ k) (2 * 10 ^ k)

/-- A JavaScript number as stored in the `cost` column after
`Math.round(parseFloat(costStr) * 100)`: `NaN`, an infinity, or an integer. -/
inductive JsNum where
  | nan : JsNum
  | inf (neg : Bool) : JsNum
  | int (z : Int) : JsNum
deriving DecidableEq, Repr

/-- Model of `parseFloat(costStr) * 100` followed by `Math.round`, for a
finite parsed value `num / 10 ^ k`: the double multiplication by 100
overflows to a signed infinity at the double overflow boundary
(`Math.round` of an infinity is that infinity); otherwise the product is
in range and `Math.round` applies (`jsRound100`). -/
def jsTimes100Round (num : Int) (k : Nat) : JsNum :=
  if dblOverflow * 10 ^ k ≤ 100 * num.natAbs then JsNum.inf (decide (num < 0))
  else JsNum.int (jsRound100 num k)

/-- The cost computation of `create` and `update`:
`const costStr = formData.get('cost')?.toString().trim();`
`const cost = costStr ? Math.round(parseFloat(costStr) * 100) : null;`. -/
def parseCost (costField : String) : Option JsNum :=
  let costStr := jsTrim costField
  if costStr = "" then none
  else
    some (match jsParseFloat costStr with
      | JsFloat.nan => JsNum.nan
      | JsFloat.inf b => JsNum.inf b
      | JsFloat.fin n k => jsTimes100Round n k)

/-- Normalization of an optional text field:
`formData.get(key)?.toString().trim() || null` — the trimmed value when
non-empty, absent otherwise (a missing field and a blank field coincide). -/
def normOpt (field : String) : Option String :=
  let t := jsTrim field
  if t = "" then none else some t

/-- A row of the `todo` table (schema in `src/lib/server/db/schema.ts`).
`contractorHired` and `completed` are the schema's 0/1 integers;
timestamps are the schema's integer milliseconds. -/
structure Todo where
  id : String
  title : String
  description : Option String
  notes : Option String
  contractorHired : Int
  contractorName : Option String
  contractorDetails : Option String
  cost : Option JsNum
  completed : Int
  sortOrder : Int
  createdAt : Int
  updatedAt : Int
deriving DecidableEq, Repr

/-- The form fields read by the `create` and `update` actions. A field
missing from the submission is modelled as `""`: every read in the code
(`?.toString().trim() || null`, truthiness tests, `=== 'on'`) treats a
missing field and an empty string identically. -/
structure TodoForm where
  id : String
  title : String
  description : String
  notes : String
  contractorHired : String
  contractorName : String
  contractorDetails : String
  cost : String
deriving DecidableEq, Repr

/-- Outcome of a form action: `return { success: true }` or
`return fail(status, { error: message })`. -/
inductive ActionResult where
  | success : ActionResult
  | failure (status : Nat) (message : String) : ActionResult
deriving DecidableEq, Repr

/-- The `sortOrder` of the single row returned by
`db.select({sortOrder}).from(todo).orderBy(asc(todo.sortOrder)).limit(1)`
(bound to `lastTodo` in the code): the minimum `sortOrder` in the table,
or `none` when the table is empty. -/
def lastTodoSortOrder (s : List Todo) : Option Int :=
  (s.map Todo.sortOrder).min?

/-- The `create` action. Validates the trimmed title, computes
`nextSortOrder` from `lastTodoSortOrder`, normalizes the optional fields,
and inserts the new row. `newId` models `crypto.randomUUID()` and `now`
models `Date.now()` (both `createdAt` and `updatedAt` default to it). -/
def create (s : List Todo) (f : TodoForm) (newId : String) (now : Int) :
    ActionResult × List Todo :=
  let title := jsTrim f.title
  if title = "" then (ActionResult.failure 400 "Title is required", s)
  else
    let nextSortOrder : Int :=
      match lastTodoSortOrder s with
      | some m => m + 1
      | none => 0
    let newTodo : Todo :=
      { id := newId
        title := title
        description := normOpt f.description
        notes := normOpt f.notes
        contractorHired := if f.contractorHired = "on" then 1 else 0
        contractorName := normOpt f.contractorName
        contractorDetails := normOpt f.contractorDetails
        cost := parseCost f.cost
        completed := 0
        sortOrder := nextSortOrder
        createdAt := now
        updatedAt := now }
    (ActionResult.success, s ++ [newTodo])

/-- The `update` action. Validates id and trimmed title, then overwrites
every field of the matching rows with the normalized submission and sets
`updatedAt := now`. -/
def update (s : List Todo) (f : TodoForm) (now : Int) :
    ActionResult × List Todo :=
  if f.id = "" then (ActionResult.failure 400 "Todo ID is required", s)
  else
    let title := jsTrim f.title
    if title = "" then (ActionResult.failure 400 "Title is required", s)
    else
      (ActionResult.success, s.map (fun r =>
        if r.id = f.id then
          { r with
            title := title
            description := normOpt f.description
            notes := normOpt f.notes
            contractorHired := if f.contractorHired = "on" then 1 else 0
            contractorName := normOpt f.contractorName
            contractorDetails := normOpt f.contractorDetails
            cost := parseCost f.cost
            updatedAt := now }
        else r))

/-- The `complete` action: `set({ completed: 1, updatedAt: Date.now() })`
on the matching rows. -/
def complete (s : List Todo) (id : String) (now : Int) :
    ActionResult × List Todo :=
  if id = "" then (ActionResult.failure 400 "Todo ID is required", s)
  else
    (ActionResult.success, s.map (fun r =>
      if r.id = id then { r with completed := 1, updatedAt := now } else r))

/-- The `restore` action: `set({ completed: 0, updatedAt: Date.now() })`
on the matching rows. -/
def restore (s : List Todo) (id : String) (now : Int) :
    ActionResult × List Todo :=
  if id = "" then (ActionResult.failure 400 "Todo ID is required", s)
  else
    (ActionResult.success, s.map (fun r =>
      if r.id = id then { r with completed := 0, updatedAt := now } else r))

/-- One `db.update(todo).set({ sortOrder }).where(eq(todo.id, id))` call
from the `reorder` action, applied for each pair of the parsed order
array. The code runs the per-row updates under `Promise.all`; each update
touches only the rows with the given id, so the sequential fold is a
faithful linearization. -/
def reorderApply (s : List Todo) (order : List (String × Int)) : List Todo :=
  order.foldl
    (fun acc p => acc.map (fun r =>
      if r.id = p.1 then { r with sortOrder := p.2 } else r))
    s

/-- The `reorder` action. The JSON layer is modelled abstractly: `payload`
is `none` when the `order` form field is missing or `JSON.parse` throws
(both return `fail(400, ...)`), and `some order` when it parses. -/
def reorder (s : List Todo) (payload : Option (List (String × Int))) :
    ActionResult × List Todo :=
  match payload with
  | none => (ActionResult.failure 400 "Invalid order data", s)
  | some order => (ActionResult.success, reorderApply s order)

/-- Comparison used by the client-side sort
`todos.sort((a, b) => a.sortOrder - b.sortOrder)`. -/
def leOrder (a b : Todo) : Prop := a.sortOrder ≤ b.sortOrder

instance : DecidableRel leOrder :=
  fun a b => inferInstanceAs (Decidable (a.sortOrder ≤ b.sortOrder))

instance : IsTotal Todo leOrder :=
  ⟨fun a b => le_total a.sortOrder b.sortOrder⟩

instance : IsTrans Todo leOrder :=
  ⟨fun _ _ _ h1 h2 => le_trans h1 h2⟩

/-- JavaScript `Array.prototype.sort` is a stable sort by the comparator;
with `(a, b) => a.sortOrder - b.sortOrder` it is the stable sort by
`sortOrder`, modelled by insertion sort (any stable sort computes the same
list). -/
def sortByOrder (l : List Todo) : List Todo :=
  List.insertionSort leOrder l

/-- Search test of `filteredTodos` for one record: `search` is the
lowercased search filter, matched against lowercased `title` and the
optional `description`, `notes`, `contractorName` (optional chaining makes
an absent field fail the test). -/
def matchesSearch (search : String) (t : Todo) : Bool :=
  jsIncludes (jsToLower t.title) search ||
  (match t.description with
   | some d => jsIncludes (jsToLower d) search
   | none => false) ||
  (match t.notes with
   | some n => jsIncludes (jsToLower n) search
   | none => false) ||
  (match t.contractorName with
   | some n => jsIncludes (jsToLower n) search
   | none => false)

/-- First filter step of `filteredTodos`: unless `showCompleted`, keep the
records with `completed === 0`. -/
def completedStep (showCompleted : Bool) (todos : List Todo) : List Todo :=
  if showCompleted then todos else todos.filter (fun t => t.completed == 0)

/-- Second filter step of `filteredTodos`: when the trimmed search filter
is non-empty (JS truthiness of `searchFilter.trim()`), keep the records
matching the lowercased (untrimmed) search filter. -/
def searchStep (searchFilter : String) (todos : List Todo) : List Todo :=
  if jsTrim searchFilter = "" then todos
  else todos.filter (matchesSearch (jsToLower searchFilter))

/-- The client-side view projection `filteredTodos` of `+page.svelte`:
completed-filter, then search-filter, then sort by `sortOrder`. -/
def filteredTodos (records : List Todo) (searchFilter : String)
    (showCompleted : Bool) : List Todo :=
  sortByOrder (searchStep searchFilter (completedStep showCompleted records))

/-- The `filteredTodos` computation together with its side effect on the
input. In the code, `todos` starts as an alias of `data.todos`; each
`filter` call rebinds `todos` to a fresh array, but when `showCompleted`
is true and the trimmed search filter is empty both filters are skipped,
so the final `todos.sort(...)` sorts `data.todos` itself in place.
The second component is the contents of the caller's array after the
projection runs. -/
def filteredTodosRun (records : List Todo) (searchFilter : String)
    (showCompleted : Bool) : List Todo × List Todo :=
  if showCompleted && (jsTrim searchFilter == "") then
    (sortByOrder records, sortByOrder records)
  else
    (filteredTodos records searchFilter showCompleted, records)

/-- Visibility predicate stated from the claims: a record is shown iff it
is not completed or `showCompleted` is set, and, when the trimmed search
filter is non-empty, it matches the search text case-insensitively on
`title`, `description`, `notes`, or `contractorName`. -/
def visibleB (searchFilter : String) (showCompleted : Bool) (t : Todo) : Bool :=
  (showCompleted || t.completed == 0) &&
  ((jsTrim searchFilter == "") || matchesSearch (jsToLower searchFilter) t)

/-- The effect of a whole `reorder` order array on a single row: the fold
of the per-pair conditional sortOrder assignment. -/
def applyAssignments (order : List (String × Int)) (r : Todo) : Todo :=
  order.foldl
    (fun rec p => if rec.id = p.1 then { rec with sortOrder := p.2 } else rec)
    r

/-- All fields of `u` except `sortOrder` agree with `r`. -/
structure EqExceptSortOrder (r u : Todo) : Prop where
  idEq : u.id = r.id
  titleEq : u.title = r.title
  descriptionEq : u.description = r.description
  notesEq : u.notes = r.notes
  contractorHiredEq : u.contractorHired = r.contractorHired
  contractorNameEq : u.contractorName = r.contractorName
  contractorDetailsEq : u.contractorDetails = r.contractorDetails
  costEq : u.cost = r.cost
  completedEq : u.completed = r.completed
  createdAtEq : u.createdAt = r.createdAt
  updatedAtEq : u.updatedAt = r.updatedAt

/-- A fixed base record used by the concrete test stores below. -/
def baseTodo : Todo :=
  { id := "a"
    title := "t"
    description := none
    notes := none
    contractorHired := 0
    contractorName := none
    contractorDetails := none
    cost := none
    completed := 0
    sortOrder := 0
    createdAt := 0
    updatedAt := 0 }

/-- A form submission with every field blank. -/
def emptyForm : TodoForm :=
  { id := ""
    title := ""
    description := ""
    notes := ""
    contractorHired := ""
    contractorName := ""
    contractorDetails := ""
    cost := "" }

/-- A two-row store whose minimum sortOrder (0) differs from its maximum
(5), separating `min + 1` from `max + 1` in the create action. -/
def c1Store : List Todo :=
  [baseTodo, { baseTodo with id := "b", sortOrder := 5 }]

/-- A record list that is not already ordered by `sortOrder`, to witness
the in-place sort performed when both view filters are inactive. -/
def c8Recs : List Todo :=
  [{ baseTodo with sortOrder := 1 }, { baseTodo with id := "b", sortOrder := 0 }]

/-! ## Helper lemmas -/

/-- `EqExceptSortOrder` is reflexive. -/
theorem eqExcept_refl (r : Todo) : EqExceptSortOrder r r :=
  ⟨rfl, rfl, rfl, rfl, rfl, rfl, rfl, rfl, rfl, rfl, rfl⟩

/-- One reorder pair changes at most `sortOrder`. -/
theorem step_eqExcept (r : Todo) (p : String × Int) :
    EqExceptSortOrder r (if r.id = p.1 then { r with sortOrder := p.2 } else r) := by
  by_cases h : r.id = p.1
  · rw [if_pos h]
    exact ⟨rfl, rfl, rfl, rfl, rfl, rfl, rfl, rfl, rfl, rfl, rfl⟩
  · rw [if_neg h]
    exact eqExcept_refl r

/-- `EqExceptSortOrder` is transitive. -/
theorem eqExcept_trans {a b c : Todo}
    (h1 : EqExceptSortOrder a b) (h2 : EqExceptSortOrder b c) :
    EqExceptSortOrder a c := by
  obtain ⟨e1, e2, e3, e4, e5, e6, e7, e8, e9, e10, e11⟩ := h1
  obtain ⟨f1, f2, f3, f4, f5, f6, f7, f8, f9, f10, f11⟩ := h2
  exact ⟨f1.trans e1, f2.trans e2, f3.trans e3, f4.trans e4, f5.trans e5,
    f6.trans e6, f7.trans e7, f8.trans e8, f9.trans e9, f10.trans e10, f11.trans e11⟩

/-- Applying a whole order array to one row changes at most `sortOrder`. -/
theorem applyAssignments_eqExcept (order : List (String × Int)) :
    ∀ r : Todo, EqExceptSortOrder r (applyAssignments order r) := by
  induction order with
  | nil => intro r; exact eqExcept_refl r
  | cons p rest ih =>
    intro r
    exact eqExcept_trans (step_eqExcept r p)
      (ih (if r.id = p.1 then { r with sortOrder := p.2 } else r))

/-- A row whose id is not assigned by the order array is left unchanged. -/
theorem applyAssignments_of_not_mem (order : List (String × Int)) :
    ∀ r : Todo, r.id ∉ order.map Prod.fst → applyAssignments order r = r := by
  induction order with
  | nil => intro r _; rfl
  | cons p rest ih =>
    intro r h
    simp only [List.map_cons, List.mem_cons, not_or] at h
    have hstep : (if r.id = p.1 then { r with sortOrder := p.2 } else r) = r :=
      if_neg h.1
    show applyAssignments rest (if r.id = p.1 then { r with sortOrder := p.2 } else r) = r
    rw [hstep]
    exact ih r h.2

/-- The reorder fold over the whole table is the row-wise map of
`applyAssignments`. -/
theorem reorderApply_eq_map (order : List (String × Int)) :
    ∀ s : List Todo, reorderApply s order = s.map (applyAssignments order) := by
  induction order with
  | nil =>
    intro s
    have h : ∀ l : List Todo, l.map (applyAssignments []) = l := by
      intro l
      induction l with
      | nil => rfl
      | cons a tl ih2 => simpa [applyAssignments] using ih2
    exact (h s).symm
  | cons p rest ih =>
    intro s
    show reorderApply
      (s.map (fun r => if r.id = p.1 then { r with sortOrder := p.2 } else r)) rest = _
    rw [ih, List.map_map]
    rfl

/-! ## Claim C1 -/

/-- C1: the claim states that `create` inserts with
`sortOrder = (max existing sortOrder) + 1` (or 0 on an empty table).
The code instead orders the limit-1 query ascending, so it reads the
minimum: on a table with sortOrders 0 and 5 the inserted row gets
sortOrder 1, not 6. This contradicts the code's own comment
"Get the current highest sortOrder to place new item at the bottom". -/
theorem create_sortOrder_eval :
    ((create c1Store { emptyForm with title := "x" } "new" 9).2.map Todo.sortOrder)
      = [0, 5, 1] ∧
    (c1Store.map Todo.sortOrder).max? = some 5 ∧
    lastTodoSortOrder c1Store = some 0 := by decide

/-! ## Claim C3 -/

/-- C3 counterexample: on an empty store (so the id resolves to no
record), `update` with a non-empty id and title returns success and
changes nothing, instead of failing. -/
theorem update_missing_id_cex :
    update [] { emptyForm with id := "ghost", title := "x" } 5
      = (ActionResult.success, []) := by decide

/-- C3 amended: `update` on an id that resolves to no record is a no-op
that reports success; the only failures are a missing id or a blank
title. -/
theorem update_missing_id_noop (s : List Todo) (f : TodoForm) (now : Int)
    (hid : f.id ≠ "") (ht : jsTrim f.title ≠ "")
    (habs : ∀ r ∈ s, r.id ≠ f.id) :
    update s f now = (ActionResult.success, s) := by
  unfold update
  rw [if_neg hid]
  simp only []
  rw [if_neg ht]
  have hmap : s.map (fun r =>
      if r.id = f.id then
        { r with
          title := jsTrim f.title
          description := normOpt f.description
          notes := normOpt f.notes
          contractorHired := if f.contractorHired = "on" then 1 else 0
          contractorName := normOpt f.contractorName
          contractorDetails := normOpt f.contractorDetails
          cost := parseCost f.cost
          updatedAt := now }
      else r) = s := by
    induction s with
    | nil => rfl
    | cons a tl ih =>
      have ha : a.id ≠ f.id := habs a (List.mem_cons_self a tl)
      have htl : ∀ r ∈ tl, r.id ≠ f.id := fun r hr => habs r (List.mem_cons_of_mem a hr)
      simp [if_neg ha, ih htl]
  rw [hmap]

/-- C3 witness: the amended no-op theorem applied at a concrete store
whose only record has a different id. -/
theorem update_missing_id_noop_w :
    update [baseTodo] { emptyForm with id := "ghost", title := "x" } 5
      = (ActionResult.success, [baseTodo]) :=
  update_missing_id_noop [baseTodo] { emptyForm with id := "ghost", title := "x" } 5
    (by decide) (by decide) (by decide)

/-! ## Claim C6 -/

/-- C6 counterexample: `complete` refreshes `updatedAt` on every call, so
calling it twice at successive times 1 and 2 does not leave the store in
the state a single call produced. -/
theorem complete_twice_cex :
    (complete ((complete [baseTodo] "a" 1).2) "a" 2).2
      ≠ (complete [baseTodo] "a" 1).2 := by decide

/-- C6 amended: `complete` and `restore` are idempotent up to the
`updatedAt` refresh: a second call collapses into a single call at the
second call's timestamp (hence at equal timestamps they are exactly
idempotent). -/
theorem complete_restore_absorb (s : List Todo) (id : String) (t1 t2 : Int) :
    complete ((complete s id t1).2) id t2 = complete s id t2 ∧
    restore ((restore s id t1).2) id t2 = restore s id t2 := by
  constructor
  · by_cases h : id = ""
    · simp [complete, h]
    · simp only [complete, if_neg h, List.map_map]
      refine congrArg (fun l => (ActionResult.success, l)) ?_
      apply List.map_congr_left
      intro a _
      by_cases ha : a.id = id
      · simp [Function.comp, ha]
      · simp [Function.comp, ha]
  · by_cases h : id = ""
    · simp [restore, h]
    · simp only [restore, if_neg h, List.map_map]
      refine congrArg (fun l => (ActionResult.success, l)) ?_
      apply List.map_congr_left
      intro a _
      by_cases ha : a.id = id
      · simp [Function.comp, ha]
      · simp [Function.comp, ha]

/-! ## Claim C10 -/

/-- C10: a parsed reorder payload only ever changes `sortOrder`: the
result store is row-for-row related to the input store, every field other
than `sortOrder` (including `completed` and `updatedAt`) is unchanged,
and rows whose id is not assigned by the payload are completely
unchanged. -/
theorem reorder_frame (s : List Todo) (order : List (String × Int)) :
    List.Forall₂
      (fun r u => EqExceptSortOrder r u ∧ (r.id ∉ order.map Prod.fst → u = r))
      s (reorderApply s order) := by
  rw [reorderApply_eq_map]
  induction s with
  | nil => exact List.Forall₂.nil
  | cons a tl ih =>
    exact List.Forall₂.cons
      ⟨applyAssignments_eqExcept order a, applyAssignments_of_not_mem order a⟩ ih

/-- C10 witness: the frame theorem instantiated on a concrete store and
payload. -/
theorem reorder_frame_w :
    List.Forall₂
      (fun r u => EqExceptSortOrder r u ∧ (r.id ∉ [("a", (3 : Int))].map Prod.fst → u = r))
      [baseTodo] (reorderApply [baseTodo] [("a", 3)]) :=
  reorder_frame [baseTodo] [("a", 3)]

/-! ## Claim C2 -/

/-- C2 counterexample: a reorder payload changes a record's `sortOrder`
(from 0 to 7) without touching `updatedAt` (still 0), so `reorder` does
not refresh the timestamp of the records it modifies. -/
theorem reorder_no_updatedAt_cex :
    reorder [baseTodo] (some [("a", 7)])
      = (ActionResult.success, [{ baseTodo with sortOrder := 7 }]) ∧
    baseTodo.updatedAt = 0 := by decide

/-- C2 amended: `update`, `complete` and `restore` set `updatedAt` to the
current time on every record they modify, but `reorder` leaves every
record's `updatedAt` unchanged (its row updates set only `sortOrder`). -/
theorem updatedAt_refresh_policy :
    (∀ (s : List Todo) (f : TodoForm) (now : Int) (r : Todo),
      f.id ≠ "" → jsTrim f.title ≠ "" → r ∈ (update s f now).2 → r.id = f.id →
      r.updatedAt = now) ∧
    (∀ (s : List Todo) (id : String) (now : Int) (r : Todo),
      id ≠ "" → r ∈ (complete s id now).2 → r.id = id → r.updatedAt = now) ∧
    (∀ (s : List Todo) (id : String) (now : Int) (r : Todo),
      id ≠ "" → r ∈ (restore s id now).2 → r.id = id → r.updatedAt = now) ∧
    (∀ (s : List Todo) (order : List (String × Int)),
      (reorderApply s order).map Todo.updatedAt = s.map Todo.updatedAt) := by
  refine ⟨?_, ?_, ?_, ?_⟩
  · intro s f now r hid ht hr hrid
    have h2 : (update s f now).2 = s.map (fun a =>
        if a.id = f.id then
          { a with
            title := jsTrim f.title
            description := normOpt f.description
            notes := normOpt f.notes
            contractorHired := if f.contractorHired = "on" then 1 else 0
            contractorName := normOpt f.contractorName
            contractorDetails := normOpt f.contractorDetails
            cost := parseCost f.cost
            updatedAt := now }
        else a) := by
      unfold update
      rw [if_neg hid]
      simp only []
      rw [if_neg ht]
    rw [h2] at hr
    obtain ⟨a, _, hae⟩ := List.mem_map.mp hr
    by_cases hc : a.id = f.id
    · rw [if_pos hc] at hae
      rw [← hae]
    · rw [if_neg hc] at hae
      rw [← hae] at hrid
      exact absurd hrid hc
  · intro s id now r hid hr hrid
    have h2 : (complete s id now).2 = s.map (fun a =>
        if a.id = id then { a with completed := 1, updatedAt := now } else a) := by
      unfold complete
      rw [if_neg hid]
    rw [h2] at hr
    obtain ⟨a, _, hae⟩ := List.mem_map.mp hr
    by_cases hc : a.id = id
    · rw [if_pos hc] at hae
      rw [← hae]
    · rw [if_neg hc] at hae
      rw [← hae] at hrid
      exact absurd hrid hc
  · intro s id now r hid hr hrid
    have h2 : (restore s id now).2 = s.map (fun a =>
        if a.id = id then { a with completed := 0, updatedAt := now } else a) := by
      unfold restore
      rw [if_neg hid]
    rw [h2] at hr
    obtain ⟨a, _, hae⟩ := List.mem_map.mp hr
    by_cases hc : a.id = id
    · rw [if_pos hc] at hae
      rw [← hae]
    · rw [if_neg hc] at hae
      rw [← hae] at hrid
      exact absurd hrid hc
  · intro s order
    rw [reorderApply_eq_map, List.map_map]
    apply List.map_congr_left
    intro a _
    exact (applyAssignments_eqExcept order a).updatedAtEq

/-- C2 witness: the `complete` clause of the policy applied at a concrete
store, record, and timestamp. -/
theorem updatedAt_refresh_policy_w :
    ({ baseTodo with completed := 1, updatedAt := 42 } : Todo).updatedAt = 42 :=
  updatedAt_refresh_policy.2.1 [baseTodo] "a" 42
    { baseTodo with completed := 1, updatedAt := 42 }
    (by decide) (by decide) (by decide)

/-! ## Claim C9 -/

/-- C9: a successful `update` is a full overwrite: every optional field of
the matching record equals the normalized submitted value (blank or
absent submissions become `none`), independent of the record's prior
values; the title is the trimmed submission and `updatedAt` the call
time. -/
theorem update_full_overwrite (s : List Todo) (f : TodoForm) (now : Int) (r : Todo)
    (hid : f.id ≠ "") (ht : jsTrim f.title ≠ "")
    (hr : r ∈ (update s f now).2) (hrid : r.id = f.id) :
    r.title = jsTrim f.title ∧
    r.description = normOpt f.description ∧
    r.notes = normOpt f.notes ∧
    r.contractorName = normOpt f.contractorName ∧
    r.contractorDetails = normOpt f.contractorDetails ∧
    r.cost = parseCost f.cost ∧
    r.contractorHired = (if f.contractorHired = "on" then 1 else 0) ∧
    r.updatedAt = now := by
  have h2 : (update s f now).2 = s.map (fun a =>
      if a.id = f.id then
        { a with
          title := jsTrim f.title
          description := normOpt f.description
          notes := normOpt f.notes
          contractorHired := if f.contractorHired = "on" then 1 else 0
          contractorName := normOpt f.contractorName
          contractorDetails := normOpt f.contractorDetails
          cost := parseCost f.cost
          updatedAt := now }
      else a) := by
    unfold update
    rw [if_neg hid]
    simp only []
    rw [if_neg ht]
  rw [h2] at hr
  obtain ⟨a, _, hae⟩ := List.mem_map.mp hr
  by_cases hc : a.id = f.id
  · rw [if_pos hc] at hae
    rw [← hae]
    exact ⟨rfl, rfl, rfl, rfl, rfl, rfl, rfl, rfl⟩
  · rw [if_neg hc] at hae
    rw [← hae] at hrid
    exact absurd hrid hc

/-- C9 witness: the overwrite theorem at a concrete update whose
submission sets description " d " and cost "12.5" over a record that had
neither. -/
theorem update_full_overwrite_w :
    ({ baseTodo with
        title := "T"
        description := some "d"
        cost := some (JsNum.int 1250)
        updatedAt := 7 } : Todo).cost
      = parseCost "12.5" :=
  (update_full_overwrite [baseTodo]
    { emptyForm with id := "a", title := " T ", description := " d ", cost := "12.5" } 7
    { baseTodo with
      title := "T"
      description := some "d"
      cost := some (JsNum.int 1250)
      updatedAt := 7 }
    (by decide) (by decide) (by decide) (by decide)).2.2.2.2.2.1

/-! ## Claim C5 -/

/-- C5 counterexample: a create submission with the non-numeric cost
string "abc" is not rejected: it reports success and inserts a record
(whose stored cost is the NaN of `Math.round(parseFloat("abc") * 100)`).
-/
theorem cost_nan_cex :
    (create [] { emptyForm with title := "x", cost := "abc" } "i" 0).1
      = ActionResult.success ∧
    ((create [] { emptyForm with title := "x", cost := "abc" } "i" 0).2.map Todo.cost)
      = [some JsNum.nan] := by decide

/-- C5 amended: a non-empty cost string that does not parse to a number
is not validated: `create` succeeds and inserts a record with cost NaN,
and `update` succeeds and sets the matching records' cost to NaN; no
InvalidInput failure occurs for cost (that signal exists only for the
reorder payload). -/
theorem cost_nan_accepted (s : List Todo) (f : TodoForm) (newId : String) (now : Int)
    (ht : jsTrim f.title ≠ "") (hc : jsTrim f.cost ≠ "")
    (hn : jsParseFloat (jsTrim f.cost) = JsFloat.nan) :
    ((create s f newId now).1 = ActionResult.success ∧
      ∃ r, (create s f newId now).2 = s ++ [r] ∧ r.cost = some JsNum.nan) ∧
    (f.id ≠ "" → (update s f now).1 = ActionResult.success ∧
      ∀ r ∈ (update s f now).2, r.id = f.id → r.cost = some JsNum.nan) := by
  have hpc : parseCost f.cost = some JsNum.nan := by
    unfold parseCost
    simp only []
    rw [if_neg hc, hn]
  constructor
  · have hcr : create s f newId now = (ActionResult.success, s ++
        [{ id := newId
           title := jsTrim f.title
           description := normOpt f.description
           notes := normOpt f.notes
           contractorHired := if f.contractorHired = "on" then 1 else 0
           contractorName := normOpt f.contractorName
           contractorDetails := normOpt f.contractorDetails
           cost := parseCost f.cost
           completed := 0
           sortOrder := match lastTodoSortOrder s with
             | some m => m + 1
             | none => 0
           createdAt := now
           updatedAt := now }]) := by
      unfold create
      rw [if_neg ht]
    rw [hcr]
    exact ⟨rfl, _, rfl, by rw [hpc]⟩
  · intro hid
    have h2 : update s f now = (ActionResult.success, s.map (fun a =>
        if a.id = f.id then
          { a with
            title := jsTrim f.title
            description := normOpt f.description
            notes := normOpt f.notes
            contractorHired := if f.contractorHired = "on" then 1 else 0
            contractorName := normOpt f.contractorName
            contractorDetails := normOpt f.contractorDetails
            cost := parseCost f.cost
            updatedAt := now }
        else a)) := by
      unfold update
      rw [if_neg hid]
      simp only []
      rw [if_neg ht]
    rw [h2]
    refine ⟨rfl, ?_⟩
    intro r hr hrid
    obtain ⟨a, _, hae⟩ := List.mem_map.mp hr
    by_cases hca : a.id = f.id
    · rw [if_pos hca] at hae
      rw [← hae]
      exact hpc
    · rw [if_neg hca] at hae
      rw [← hae] at hrid
      exact absurd hrid hca

/-- C5 witness: the amended theorem at the concrete cost string "abc". -/
theorem cost_nan_accepted_w :
    ((create [baseTodo] { emptyForm with id := "a", title := "x", cost := "abc" } "i" 3).1
        = ActionResult.success ∧
      ∃ r, (create [baseTodo] { emptyForm with id := "a", title := "x", cost := "abc" } "i" 3).2
          = [baseTodo] ++ [r] ∧ r.cost = some JsNum.nan) ∧
    (({ emptyForm with id := "a", title := "x", cost := "abc" } : TodoForm).id ≠ "" →
      (update [baseTodo] { emptyForm with id := "a", title := "x", cost := "abc" } 3).1
        = ActionResult.success ∧
      ∀ r ∈ (update [baseTodo] { emptyForm with id := "a", title := "x", cost := "abc" } 3).2,
        r.id = ({ emptyForm with id := "a", title := "x", cost := "abc" } : TodoForm).id →
        r.cost = some JsNum.nan) :=
  cost_nan_accepted [baseTodo] { emptyForm with id := "a", title := "x", cost := "abc" } "i" 3
    (by decide) (by decide) (by decide)

/-! ## Claim C4 -/

/-- The two filter steps of the projection compute exactly the filter by
the claimed visibility predicate. -/
theorem steps_eq_filter (records : List Todo) (searchFilter : String)
    (showCompleted : Bool) :
    searchStep searchFilter (completedStep showCompleted records)
      = records.filter (visibleB searchFilter showCompleted) := by
  unfold searchStep completedStep visibleB
  cases showCompleted with
  | false =>
    by_cases h2 : jsTrim searchFilter = ""
    · rw [if_pos h2]
      simp only [Bool.false_eq_true, if_false]
      apply List.filter_congr
      intro t _
      simp [h2]
    · rw [if_neg h2]
      simp only [Bool.false_eq_true, if_false]
      rw [List.filter_filter]
      apply List.filter_congr
      intro t _
      have hb : (jsTrim searchFilter == "") = false := beq_eq_false_iff_ne.mpr h2
      simp only [hb, Bool.false_or]
      exact Bool.and_comm _ _
  | true =>
    by_cases h2 : jsTrim searchFilter = ""
    · rw [if_pos h2]
      simp only [if_true]
      have hall : ∀ t ∈ records,
          ((true || t.completed == 0) &&
            ((jsTrim searchFilter == "") ||
              matchesSearch (jsToLower searchFilter) t)) = true := by
        intro t _
        simp [h2]
      exact (List.filter_eq_self.mpr hall).symm
    · rw [if_neg h2]
      simp only [if_true]
      apply List.filter_congr
      intro t _
      have hb : (jsTrim searchFilter == "") = false := beq_eq_false_iff_ne.mpr h2
      simp [hb]

/-- The stable sort leaves each equal-`sortOrder` class in its input
order: filtering the sorted list down to one key equals filtering the
input. -/
theorem sortByOrder_filter_key (l : List Todo) (k : Int) :
    (sortByOrder l).filter (fun t => t.sortOrder == k)
      = l.filter (fun t => t.sortOrder == k) := by
  have hpair : (l.filter (fun t => t.sortOrder == k)).Pairwise leOrder := by
    apply List.pairwise_of_forall_mem_list
    intro a ha b hb
    have ha2 : a.sortOrder = k := by simpa using List.of_mem_filter ha
    have hb2 : b.sortOrder = k := by simpa using List.of_mem_filter hb
    show a.sortOrder ≤ b.sortOrder
    rw [ha2, hb2]
  have hsub : List.Sublist (l.filter (fun t => t.sortOrder == k)) (sortByOrder l) :=
    List.sublist_insertionSort hpair (List.filter_sublist l)
  have hidem : (l.filter (fun t => t.sortOrder == k)).filter (fun t => t.sortOrder == k)
      = l.filter (fun t => t.sortOrder == k) := by
    rw [List.filter_filter]
    apply List.filter_congr
    intro t _
    exact Bool.and_self _
  have hsub2 : List.Sublist (l.filter (fun t => t.sortOrder == k))
      ((sortByOrder l).filter (fun t => t.sortOrder == k)) := by
    rw [← hidem]
    exact hsub.filter _
  have hperm : ((sortByOrder l).filter (fun t => t.sortOrder == k)).Perm
      (l.filter (fun t => t.sortOrder == k)) :=
    (List.perm_insertionSort leOrder l).filter _
  exact (hsub2.eq_of_length hperm.length_eq.symm).symm

/-- C7: the view projection returns exactly the visible records — a
permutation of the input filtered by the visibility predicate (not
completed unless `showCompleted`; matching the lowercased search text on
title, description, notes, or contractorName when the trimmed filter is
non-empty, with absent fields never matching) — and its output is sorted
by `sortOrder` ascending. -/
theorem filteredTodos_spec (records : List Todo) (searchFilter : String)
    (showCompleted : Bool) :
    (filteredTodos records searchFilter showCompleted).Perm
      (records.filter (visibleB searchFilter showCompleted)) ∧
    List.Sorted leOrder (filteredTodos records searchFilter showCompleted) := by
  constructor
  · have hp :=
      List.perm_insertionSort leOrder
        (searchStep searchFilter (completedStep showCompleted records))
    have he := steps_eq_filter records searchFilter showCompleted
    exact hp.trans (he ▸ List.Perm.refl _)
  · exact List.sorted_insertionSort leOrder _

/-- C8 counterexample: with `showCompleted = true` and a blank search
filter, the projection sorts the caller's record array in place: on an
unsorted input the array contents afterwards differ from the input. -/
theorem run_mutates_input_cex :
    (filteredTodosRun c8Recs "" true).2 ≠ c8Recs := by decide

/-- C8 amended: the projection output is the pure recomputation (same
inputs, same output) and ties between equal-`sortOrder` records keep
their input order; the input array is untouched whenever one of the two
filters applies, but when `showCompleted` is true and the trimmed search
text is empty the input array itself is sorted in place. -/
theorem filteredTodosRun_props (records : List Todo) (searchFilter : String)
    (showCompleted : Bool) :
    (filteredTodosRun records searchFilter showCompleted).1
      = filteredTodos records searchFilter showCompleted ∧
    ((showCompleted = false ∨ jsTrim searchFilter ≠ "") →
      (filteredTodosRun records searchFilter showCompleted).2 = records) ∧
    (showCompleted = true → jsTrim searchFilter = "" →
      (filteredTodosRun records searchFilter showCompleted).2 = sortByOrder records) ∧
    (∀ k : Int,
      ((filteredTodosRun records searchFilter showCompleted).1.filter
          (fun t => t.sortOrder == k))
        = ((records.filter (visibleB searchFilter showCompleted)).filter
          (fun t => t.sortOrder == k))) := by
  by_cases hcond : (showCompleted && (jsTrim searchFilter == "")) = true
  · have hshow : showCompleted = true := (Bool.and_eq_true _ _ |>.mp hcond).1
    have htrim : jsTrim searchFilter = "" := by
      have := (Bool.and_eq_true _ _ |>.mp hcond).2
      simpa using this
    have hrun : filteredTodosRun records searchFilter showCompleted
        = (sortByOrder records, sortByOrder records) := by
      unfold filteredTodosRun
      rw [if_pos hcond]
    have hfe : filteredTodos records searchFilter showCompleted
        = sortByOrder records := by
      unfold filteredTodos searchStep completedStep
      rw [hshow]
      simp [htrim]
    have hv : records.filter (visibleB searchFilter showCompleted) = records := by
      rw [← steps_eq_filter]
      unfold searchStep completedStep
      rw [hshow]
      simp [htrim]
    refine ⟨?_, ?_, ?_, ?_⟩
    · rw [hrun, hfe]
    · intro h
      cases h with
      | inl h1 => rw [hshow] at h1; exact absurd h1 (by simp)
      | inr h2 => exact absurd htrim h2
    · intro _ _
      rw [hrun]
    · intro k
      rw [hrun, hv]
      exact sortByOrder_filter_key records k
  · have hrun : filteredTodosRun records searchFilter showCompleted
        = (filteredTodos records searchFilter showCompleted, records) := by
      unfold filteredTodosRun
      rw [if_neg hcond]
    refine ⟨?_, ?_, ?_, ?_⟩
    · rw [hrun]
    · intro _
      rw [hrun]
    · intro hshow htrim
      exfalso
      apply hcond
      rw [hshow, htrim]
      rfl
    · intro k
      rw [hrun]
      show (filteredTodos records searchFilter showCompleted).filter
          (fun t => t.sortOrder == k) = _
      unfold filteredTodos
      rw [sortByOrder_filter_key, steps_eq_filter]

/-- C8 witness: the no-mutation clause at a concrete unsorted input with
the completed-filter active. -/
theorem filteredTodosRun_props_w :
    (filteredTodosRun c8Recs "q" false).2 = c8Recs :=
  (filteredTodosRun_props c8Recs "q" false).2.1 (Or.inl rfl)

end TodoApp
